import Mathlib

/-!
# Invasion percolation: a shallow embedding

The repository contains two notebooks implementing the same invasion
percolation model:

* the first notebook (the unnamed file) defines `percolation`, `make_grid`,
  `fill`, `on_boundary`, `calculate_density`, `choose_next` and `is_adjacent`
  with no precondition checks and with an `is_adjacent` that does not guard
  against filled cells;
* `testing.ipynb` repeats the same definitions, adding `assert` precondition
  checks to `percolation` and a filled-cell guard (`if grid[loc] == 0: return
  False`) to `is_adjacent`.

We embed both variants.  A grid is a list of rows of natural numbers: `0` is
the sentinel for a filled cell, positive values are resistances.  Randomness
(`np.random.randint` for grid construction, `random.choice` for tie-break
selection) is made explicit: grid construction takes a value source
`gen : Nat → Nat → Nat`, and each call to `random.choice` consumes one natural
number from a stream `picks : Nat → Nat`, used as an index into the candidate
list modulo its length; `random.choice` on the empty list raises `IndexError`,
embedded as `none`/a distinct error value.
-/

abbrev Loc := Nat × Nat

abbrev Grid := List (List Nat)

/-- `grid.shape` of the NumPy array: number of rows and number of columns
(the notebooks only ever build rectangular, in fact square, arrays). -/
def dims (g : Grid) : Nat × Nat := (g.length, (g.headD []).length)

/-- `grid[x, y]`: read one cell (out-of-range reads, which the notebooks never
perform, default to `0`). -/
def getCell (g : Grid) (p : Loc) : Nat := (g.getD p.1 []).getD p.2 0

/-- The row-major traversal order `for x in range(dim_x): for y in range(dim_y)`
used by `choose_next`. -/
def coords (g : Grid) : List Loc :=
  (List.range (dims g).1).flatMap (fun x => (List.range (dims g).2).map (fun y => (x, y)))

/-- `grid.max()`: the largest value stored in the grid. -/
def gridMax (g : Grid) : Nat := g.flatten.foldl Nat.max 0

/-- `fill(grid, loc)`: `grid[loc] = 0`, marking a cell as filled. -/
def fill (g : Grid) (p : Loc) : Grid := g.set p.1 ((g.getD p.1 []).set p.2 0)

/-- `make_grid(size, spread)`: a `size × size` grid of values in
`[1, spread]`; the random draw `np.random.randint(low=1, high=spread+1)` for
cell `(x, y)` is `1 + gen x y % spread`, which ranges over exactly
`[1, spread]` as `gen x y` ranges over the naturals. -/
def make_grid (size spread : Nat) (gen : Nat → Nat → Nat) : Grid :=
  (List.range size).map (fun x => (List.range size).map (fun y => 1 + gen x y % spread))

/-- `on_boundary(grid, loc)`: is the cell on the outermost ring of the grid? -/
def on_boundary (g : Grid) (p : Loc) : Bool :=
  p.1 == 0 || p.2 == 0 || p.1 == (dims g).1 - 1 || p.2 == (dims g).2 - 1

/-- `calculate_density`'s `np.sum(grid == 0)`: how many cells are filled. -/
def filledCount (g : Grid) : Nat := g.flatten.count 0

/-- `grid.size`: the total number of cells. -/
def gsize (g : Grid) : Nat := g.flatten.length

/-- `calculate_density(grid)`: the proportion of cells that are filled. -/
def calculate_density (g : Grid) : ℚ := (filledCount g : ℚ) / (gsize g : ℚ)

/-- `is_adjacent(grid, loc)` as defined in the first notebook: no filled-cell
guard; true iff some in-bounds orthogonal neighbour holds the sentinel `0`. -/
def is_adjacent_v0 (g : Grid) (p : Loc) : Bool :=
  let x := p.1
  let y := p.2
  let max_x := (dims g).1
  let max_y := (dims g).2
  if 0 < x ∧ getCell g (x - 1, y) = 0 then true
  else if 0 < y ∧ getCell g (x, y - 1) = 0 then true
  else if x < max_x - 1 ∧ getCell g (x + 1, y) = 0 then true
  else if y < max_y - 1 ∧ getCell g (x, y + 1) = 0 then true
  else false

/-- `is_adjacent(grid, loc)` as defined in `testing.ipynb`: returns `False`
immediately when the cell itself is filled (`grid[loc] == 0`), otherwise
checks the up-to-4 orthogonal neighbours exactly as the first notebook. -/
def is_adjacent (g : Grid) (p : Loc) : Bool :=
  if getCell g p = 0 then false
  else is_adjacent_v0 g p

/-- One iteration of the doubly nested scan loop in `choose_next`, carrying
the running state `(value, candidates)`; `adj` is the `is_adjacent` helper the
notebook variant calls. -/
def scanStep (adj : Grid → Loc → Bool) (g : Grid) (st : Nat × List Loc) (p : Loc) :
    Nat × List Loc :=
  if getCell g p = 0 then st
  else if adj g p then
    if getCell g p < st.1 then (getCell g p, [p])
    else if getCell g p = st.1 then (st.1, st.2 ++ [p])
    else st
  else st

/-- The full scan of `choose_next`: start from `value = 1 + grid.max()`,
`candidates = []`, and fold the loop body over the grid in row-major order. -/
def scanGrid (adj : Grid → Loc → Bool) (g : Grid) : Nat × List Loc :=
  (coords g).foldl (scanStep adj g) (1 + gridMax g, [])

/-- The candidate list built by `choose_next` in `testing.ipynb`. -/
def candList (g : Grid) : List Loc := (scanGrid is_adjacent g).2

/-- The candidate list built by `choose_next` in the first notebook (whose
`is_adjacent` lacks the filled-cell guard). -/
def candList_v0 (g : Grid) : List Loc := (scanGrid is_adjacent_v0 g).2

/-- `choose_next(grid)` of `testing.ipynb`: `random.choice(candidates)` with
the random draw made explicit as an index `i` reduced modulo the list length;
on an empty candidate list `random.choice` raises `IndexError`, embedded as
`none`. -/
def choose_next (g : Grid) (i : Nat) : Option Loc :=
  (candList g)[i % (candList g).length]?

/-- `choose_next(grid)` of the first notebook. -/
def choose_next_v0 (g : Grid) (i : Nat) : Option Loc :=
  (candList_v0 g)[i % (candList_v0 g).length]?

/-- Stated from the spec's words, for comparison with `is_adjacent`: at least
one of the up-to-4 orthogonal neighbours (up, down, left, right; fewer at grid
edges) currently holds the sentinel value `0`. -/
def hasFilledNeighbor (g : Grid) (p : Loc) : Prop :=
  (0 < p.1 ∧ getCell g (p.1 - 1, p.2) = 0) ∨
  (0 < p.2 ∧ getCell g (p.1, p.2 - 1) = 0) ∨
  (p.1 + 1 < (dims g).1 ∧ getCell g (p.1 + 1, p.2) = 0) ∨
  (p.2 + 1 < (dims g).2 ∧ getCell g (p.1, p.2 + 1) = 0)

/-- The body of `choose_next` with the grid threaded through the scan state,
statement by statement: every branch reads `st.1` (the grid) and writes it
back untouched, because no statement of the source assigns into the grid. -/
def scanStepRun (st : Grid × Nat × List Loc) (p : Loc) : Grid × Nat × List Loc :=
  let g := st.1
  if getCell g p = 0 then st
  else if is_adjacent g p then
    if getCell g p < st.2.1 then (g, getCell g p, [p])
    else if getCell g p = st.2.1 then (g, st.2.1, st.2.2 ++ [p])
    else st
  else st

/-- `choose_next` as a state transformer on the grid: run the scan threading
the grid through, then return the (possibly absent) chosen location together
with the grid the caller is left with. -/
def choose_next_run (g : Grid) (i : Nat) : Grid × Option Loc :=
  let st := (coords g).foldl scanStepRun (g, 1 + gridMax g, [])
  (st.1, st.2.2[i % st.2.2.length]?)

/-- Rectangularity: every row has the column count reported by `grid.shape`
(true of every NumPy array the notebooks build). -/
def Rect (g : Grid) : Prop := ∀ row ∈ g, row.length = (dims g).2

/-- The qualifying condition of the spec: an in-scan-range cell that is
unfilled and adjacent to the filled region. -/
def isCand (g : Grid) (p : Loc) : Prop :=
  p ∈ coords g ∧ getCell g p ≠ 0 ∧ is_adjacent g p = true

instance (g : Grid) (p : Loc) : Decidable (isCand g p) := by
  unfold isCand; infer_instance

/-- The probability that `random.choice cs` returns `c`: `random.choice`
draws an index uniformly from `[0, cs.length)`, so the chance of seeing `c`
is the number of indices holding `c` over the length. -/
def pickProb (cs : List Loc) (c : Loc) : ℚ :=
  ((Finset.univ.filter (fun i : Fin cs.length => cs.get i = c)).card : ℚ) / (cs.length : ℚ)

/-- The failure modes of the embedded `percolation`: a violated `assert` on
the inputs, the `IndexError` from `random.choice([])` (exhausted frontier),
and exhaustion of the loop fuel (the embedding runs the `while` loop on
explicit fuel). -/
inductive PercErr where
  | precondition
  | frontier
  | fuel
deriving DecidableEq, Repr

/-- The `while not on_boundary(grid, chosen)` loop of `percolation`, on
explicit fuel, also recording the list of locations it fills (`tr`, most
recent first); `k` counts the `random.choice` calls made so far. -/
def growLoop (picks : Nat → Nat) : Nat → Grid → Loc → Nat → List Loc →
    Except PercErr (Grid × Loc × List Loc)
  | 0, g, chosen, _, tr =>
    if on_boundary g chosen then .ok (g, chosen, tr) else .error .fuel
  | fuel + 1, g, chosen, k, tr =>
    if on_boundary g chosen then .ok (g, chosen, tr)
    else
      match choose_next g (picks k) with
      | none => .error .frontier
      | some p => growLoop picks fuel (fill g p) p (k + 1) (p :: tr)

/-- `percolation(size, spread)` as defined in `testing.ipynb`: assert that
`size` is a positive odd integer and `spread` a positive integer, build the
grid, fill the centre `(int(size/2), int(size/2))`, run the growing loop, and
return the final grid with its density.  The `while` loop has no counter in
the source; the embedding runs it on fuel `size²`, which exceeds the `size²-1`
cells left unfilled after the seed and so is provably never exhausted. -/
def percolation (size spread : Int) (gen : Nat → Nat → Nat) (picks : Nat → Nat) :
    Except PercErr (Grid × ℚ) :=
  if 0 < size ∧ size % 2 = 1 ∧ 0 < spread then
    let n := size.toNat
    let grid := make_grid n spread.toNat gen
    let chosen : Loc := (n / 2, n / 2)
    match growLoop picks (n * n) (fill grid chosen) chosen 0 [] with
    | .error e => .error e
    | .ok (g, _, _) => .ok (g, calculate_density g)
  else .error .precondition

/-! ## Basic facts about the grid representation -/

lemma dims_fst (g : Grid) : (dims g).1 = g.length := rfl

lemma coords_eq_product (g : Grid) :
    coords g = (List.range (dims g).1) ×ˢ (List.range (dims g).2) := rfl

lemma mem_coords (g : Grid) (p : Loc) :
    p ∈ coords g ↔ p.1 < (dims g).1 ∧ p.2 < (dims g).2 := by
  rw [coords_eq_product]
  cases p with
  | mk x y => simp [List.mem_product]

lemma coords_nodup (g : Grid) : (coords g).Nodup := by
  rw [coords_eq_product]
  exact (List.nodup_range _).product (List.nodup_range _)

lemma foldl_max_le_self : ∀ (l : List Nat) (b : Nat), b ≤ l.foldl Nat.max b := by
  intro l
  induction l with
  | nil => intro b; exact le_refl b
  | cons x l ih =>
    intro b
    calc b ≤ Nat.max b x := Nat.le_max_left b x
    _ ≤ l.foldl Nat.max (Nat.max b x) := ih _

lemma le_foldl_max : ∀ (l : List Nat) (b a : Nat), a ∈ l → a ≤ l.foldl Nat.max b := by
  intro l
  induction l with
  | nil => intro b a h; cases h
  | cons x l ih =>
    intro b a h
    rcases List.mem_cons.1 h with h | h
    · subst h
      calc a ≤ Nat.max b a := Nat.le_max_right b a
      _ ≤ l.foldl Nat.max (Nat.max b a) := foldl_max_le_self _ _
    · exact ih _ a h

lemma getCell_mem_flatten (g : Grid) (p : Loc) (h : getCell g p ≠ 0) :
    getCell g p ∈ g.flatten := by
  unfold getCell at *
  by_cases h1 : p.1 < g.length
  · have hrow : g.getD p.1 [] = g[p.1] := by
      rw [List.getD_eq_getElem?_getD, List.getElem?_eq_getElem h1]
      rfl
    by_cases h2 : p.2 < (g.getD p.1 []).length
    · have hc : (g.getD p.1 []).getD p.2 0 = (g.getD p.1 [])[p.2] := by
        rw [List.getD_eq_getElem?_getD, List.getElem?_eq_getElem h2]
        rfl
      rw [hc]
      refine List.mem_flatten.2 ⟨g.getD p.1 [], ?_, List.getElem_mem h2⟩
      rw [hrow]
      exact List.getElem_mem h1
    · exact absurd (List.getD_eq_default _ _ (Nat.le_of_not_lt h2)) h
  · have : g.getD p.1 [] = [] := List.getD_eq_default _ _ (Nat.le_of_not_lt h1)
    rw [this] at h
    exact absurd rfl h

lemma getCell_le_gridMax (g : Grid) (p : Loc) (h : getCell g p ≠ 0) :
    getCell g p ≤ gridMax g :=
  le_foldl_max _ _ _ (getCell_mem_flatten g p h)

lemma getCell_lt_scan_init (g : Grid) (p : Loc) (h : getCell g p ≠ 0) :
    getCell g p < 1 + gridMax g := by
  have := getCell_le_gridMax g p h
  omega

/-! ## The scan loop of `choose_next` -/

lemma scanStep_cases (adj : Grid → Loc → Bool) (g : Grid) (st : Nat × List Loc) (p : Loc) :
    scanStep adj g st p = st
    ∨ (getCell g p ≠ 0 ∧ adj g p = true ∧ getCell g p < st.1 ∧
        scanStep adj g st p = (getCell g p, [p]))
    ∨ (getCell g p ≠ 0 ∧ adj g p = true ∧ getCell g p = st.1 ∧
        scanStep adj g st p = (st.1, st.2 ++ [p])) := by
  unfold scanStep
  split_ifs with h1 h2 h3 h4
  · exact Or.inl rfl
  · exact Or.inr (Or.inl ⟨h1, h2, h3, rfl⟩)
  · exact Or.inr (Or.inr ⟨h1, h2, h4, rfl⟩)
  · exact Or.inl rfl
  · exact Or.inl rfl

lemma scanStep_fst_le (adj : Grid → Loc → Bool) (g : Grid) (st : Nat × List Loc) (p : Loc) :
    (scanStep adj g st p).1 ≤ st.1 := by
  rcases scanStep_cases adj g st p with h | ⟨_, _, hlt, h⟩ | ⟨_, _, _, h⟩ <;> rw [h]
  exact le_of_lt hlt

lemma scan_fst_le (adj : Grid → Loc → Bool) (g : Grid) :
    ∀ (l : List Loc) (st : Nat × List Loc), (l.foldl (scanStep adj g) st).1 ≤ st.1 := by
  intro l
  induction l with
  | nil => intro st; exact le_refl _
  | cons a l ih =>
    intro st
    rw [List.foldl_cons]
    exact le_trans (ih _) (scanStep_fst_le adj g st a)

lemma scanStep_fst_le_cell (adj : Grid → Loc → Bool) (g : Grid) (st : Nat × List Loc) (p : Loc)
    (h0 : getCell g p ≠ 0) (hadj : adj g p = true) :
    (scanStep adj g st p).1 ≤ getCell g p := by
  unfold scanStep
  rw [if_neg h0, if_pos hadj]
  by_cases h3 : getCell g p < st.1
  · rw [if_pos h3]
  · rw [if_neg h3]
    by_cases h4 : getCell g p = st.1
    · rw [if_pos h4]
      exact Nat.le_of_eq h4.symm
    · rw [if_neg h4]
      omega

lemma scan_fst_le_cand (adj : Grid → Loc → Bool) (g : Grid) (p : Loc) :
    ∀ (l : List Loc) (st : Nat × List Loc), p ∈ l → getCell g p ≠ 0 → adj g p = true →
      (l.foldl (scanStep adj g) st).1 ≤ getCell g p := by
  intro l
  induction l with
  | nil => intro st h; cases h
  | cons a l ih =>
    intro st hmem h0 hadj
    rw [List.foldl_cons]
    rcases List.mem_cons.1 hmem with h | h
    · subst h
      exact le_trans (scan_fst_le adj g l _) (scanStep_fst_le_cell adj g st p h0 hadj)
    · exact ih _ h h0 hadj

lemma scan_snd_mem (adj : Grid → Loc → Bool) (g : Grid) :
    ∀ (l : List Loc) (st : Nat × List Loc) (q : Loc),
      q ∈ (l.foldl (scanStep adj g) st).2 →
      q ∈ st.2 ∨ (q ∈ l ∧ getCell g q ≠ 0 ∧ adj g q = true) := by
  intro l
  induction l with
  | nil => intro st q h; exact Or.inl h
  | cons a l ih =>
    intro st q h
    rw [List.foldl_cons] at h
    rcases ih _ q h with h' | ⟨hq, h0, hadj⟩
    · rcases scanStep_cases adj g st a with hc | ⟨h0, hadj, _, hc⟩ | ⟨h0, hadj, _, hc⟩ <;>
        rw [hc] at h'
      · exact Or.inl h'
      · simp only [List.mem_singleton] at h'
        subst h'
        exact Or.inr ⟨List.mem_cons_self _ _, h0, hadj⟩
      · rcases List.mem_append.1 h' with h'' | h''
        · exact Or.inl h''
        · simp only [List.mem_singleton] at h''
          subst h''
          exact Or.inr ⟨List.mem_cons_self _ _, h0, hadj⟩
    · exact Or.inr ⟨List.mem_cons_of_mem a hq, h0, hadj⟩

lemma scan_snd_val (adj : Grid → Loc → Bool) (g : Grid) :
    ∀ (l : List Loc) (st : Nat × List Loc), (∀ q ∈ st.2, getCell g q = st.1) →
      ∀ q ∈ (l.foldl (scanStep adj g) st).2, getCell g q = (l.foldl (scanStep adj g) st).1 := by
  intro l
  induction l with
  | nil => intro st h q hq; exact h q hq
  | cons a l ih =>
    intro st hinv q hq
    rw [List.foldl_cons] at hq ⊢
    refine ih _ ?_ q hq
    rcases scanStep_cases adj g st a with hc | ⟨h0, hadj, _, hc⟩ | ⟨h0, hadj, heq, hc⟩ <;> rw [hc]
    · exact hinv
    · intro r hr
      simp only [List.mem_singleton] at hr
      subst hr
      rfl
    · intro r hr
      rcases List.mem_append.1 hr with h' | h'
      · exact hinv r h'
      · simp only [List.mem_singleton] at h'
        subst h'
        exact heq

lemma scanStep_eq_of_snd_nil (adj : Grid → Loc → Bool) (g : Grid) (st : Nat × List Loc) (p : Loc)
    (h : (scanStep adj g st p).2 = []) : scanStep adj g st p = st := by
  rcases scanStep_cases adj g st p with hc | ⟨_, _, _, hc⟩ | ⟨_, _, _, hc⟩
  · exact hc
  · rw [hc] at h; cases h
  · rw [hc] at h; exact absurd h (List.append_ne_nil_of_right_ne_nil _ (by simp))

lemma scan_snd_ne_nil (adj : Grid → Loc → Bool) (g : Grid) :
    ∀ (l : List Loc) (st : Nat × List Loc), st.2 ≠ [] →
      (l.foldl (scanStep adj g) st).2 ≠ [] := by
  intro l
  induction l with
  | nil => intro st h; exact h
  | cons a l ih =>
    intro st h
    rw [List.foldl_cons]
    refine ih _ ?_
    rcases scanStep_cases adj g st a with hc | ⟨_, _, _, hc⟩ | ⟨_, _, _, hc⟩ <;> rw [hc]
    · exact h
    · simp
    · exact List.append_ne_nil_of_right_ne_nil _ (by simp)

lemma scan_snd_ne_nil_of_cand (adj : Grid → Loc → Bool) (g : Grid) (p : Loc) :
    ∀ (l : List Loc) (st : Nat × List Loc),
      (∀ q : Loc, getCell g q ≠ 0 → getCell g q < st.1) →
      p ∈ l → getCell g p ≠ 0 → adj g p = true →
      (l.foldl (scanStep adj g) st).2 ≠ [] := by
  intro l
  induction l with
  | nil => intro st _ h; cases h
  | cons a l ih =>
    intro st hbig hmem h0 hadj
    rw [List.foldl_cons]
    rcases List.mem_cons.1 hmem with h | h
    · subst h
      refine scan_snd_ne_nil adj g l _ ?_
      rcases scanStep_cases adj g st p with hc | ⟨_, _, _, hc⟩ | ⟨_, _, _, hc⟩ <;> rw [hc]
      · exfalso
        have hstep : scanStep adj g st p = (getCell g p, [p]) := by
          unfold scanStep
          rw [if_neg h0, if_pos hadj, if_pos (hbig p h0)]
        rw [hstep] at hc
        have h1 := congrArg Prod.fst hc
        simp at h1
        have h2 := hbig p h0
        omega
      · simp
      · exact List.append_ne_nil_of_right_ne_nil _ (by simp)
    · by_cases hnil : (scanStep adj g st a).2 = []
      · have heq := scanStep_eq_of_snd_nil adj g st a hnil
        rw [heq]
        exact ih st hbig h h0 hadj
      · exact scan_snd_ne_nil adj g l _ hnil

lemma scan_keep (adj : Grid → Loc → Bool) (g : Grid) :
    ∀ (l : List Loc) (st : Nat × List Loc) (q : Loc),
      (∀ r ∈ st.2, getCell g r = st.1) → q ∈ st.2 →
      getCell g q = (l.foldl (scanStep adj g) st).1 →
      q ∈ (l.foldl (scanStep adj g) st).2 := by
  intro l
  induction l with
  | nil => intro st q _ hq _; exact hq
  | cons a l ih =>
    intro st q hinv hq hcell
    rw [List.foldl_cons] at hcell ⊢
    have hinv' : ∀ r ∈ (scanStep adj g st a).2, getCell g r = (scanStep adj g st a).1 := by
      intro r hr
      rcases scanStep_cases adj g st a with hc | ⟨h0, hadj, _, hc⟩ | ⟨h0, hadj, heq, hc⟩ <;>
          rw [hc] at hr ⊢
      · exact hinv r hr
      · simp only [List.mem_singleton] at hr
        subst hr
        rfl
      · rcases List.mem_append.1 hr with h' | h'
        · exact hinv r h'
        · simp only [List.mem_singleton] at h'
          subst h'
          exact heq
    rcases scanStep_cases adj g st a with hc | ⟨h0, hadj, hlt, hc⟩ | ⟨h0, hadj, heq, hc⟩
    · rw [hc] at hcell ⊢
      exact ih st q hinv hq hcell
    · exfalso
      have hfle := scan_fst_le adj g l (scanStep adj g st a)
      rw [hc] at hfle hcell
      simp only at hfle
      have h1 := hinv q hq
      omega
    · refine ih _ q hinv' ?_ hcell
      rw [hc]
      exact List.mem_append.2 (Or.inl hq)

lemma scan_complete (adj : Grid → Loc → Bool) (g : Grid) :
    ∀ (l : List Loc) (st : Nat × List Loc) (p : Loc),
      (∀ r ∈ st.2, getCell g r = st.1) →
      p ∈ l → getCell g p ≠ 0 → adj g p = true →
      getCell g p = (l.foldl (scanStep adj g) st).1 →
      p ∈ (l.foldl (scanStep adj g) st).2 := by
  intro l
  induction l with
  | nil => intro st p _ h; cases h
  | cons a l ih =>
    intro st p hinv hmem h0 hadj hcell
    rw [List.foldl_cons] at hcell ⊢
    have hinv' : ∀ r ∈ (scanStep adj g st a).2, getCell g r = (scanStep adj g st a).1 := by
      intro r hr
      rcases scanStep_cases adj g st a with hc | ⟨ha0, haadj, _, hc⟩ | ⟨ha0, haadj, haeq, hc⟩ <;>
          rw [hc] at hr ⊢
      · exact hinv r hr
      · simp only [List.mem_singleton] at hr
        subst hr
        rfl
      · rcases List.mem_append.1 hr with h' | h'
        · exact hinv r h'
        · simp only [List.mem_singleton] at h'
          subst h'
          exact haeq
    rcases List.mem_cons.1 hmem with h | h
    · subst h
      by_cases h3 : getCell g p < st.1
      · have hstep : scanStep adj g st p = (getCell g p, [p]) := by
          unfold scanStep
          rw [if_neg h0, if_pos hadj, if_pos h3]
        rw [hstep] at hinv' hcell ⊢
        exact scan_keep adj g l _ p hinv' (List.mem_singleton.2 rfl) hcell
      · by_cases h4 : getCell g p = st.1
        · have hstep : scanStep adj g st p = (st.1, st.2 ++ [p]) := by
            unfold scanStep
            rw [if_neg h0, if_pos hadj, if_neg h3, if_pos h4]
          rw [hstep] at hinv' hcell ⊢
          exact scan_keep adj g l _ p hinv' (List.mem_append.2 (Or.inr (List.mem_singleton.2 rfl)))
            hcell
        · exfalso
          have hstep : scanStep adj g st p = st := by
            unfold scanStep
            rw [if_neg h0, if_pos hadj, if_neg h3, if_neg h4]
          rw [hstep] at hcell
          have hfle := scan_fst_le adj g l st
          omega
    · exact ih _ p hinv' h h0 hadj hcell

lemma scan_nodup (adj : Grid → Loc → Bool) (g : Grid) :
    ∀ (l : List Loc) (st : Nat × List Loc), st.2.Nodup → (∀ q ∈ l, q ∉ st.2) → l.Nodup →
      (l.foldl (scanStep adj g) st).2.Nodup := by
  intro l
  induction l with
  | nil => intro st h _ _; exact h
  | cons a l ih =>
    intro st hnd hdisj hl
    rw [List.foldl_cons]
    have hal : a ∉ l := (List.nodup_cons.1 hl).1
    have hl' : l.Nodup := (List.nodup_cons.1 hl).2
    rcases scanStep_cases adj g st a with hc | ⟨_, _, _, hc⟩ | ⟨_, _, _, hc⟩ <;> rw [hc]
    · exact ih st hnd (fun q hq => hdisj q (List.mem_cons_of_mem a hq)) hl'
    · refine ih _ (by simp) ?_ hl'
      intro q hq
      simp only [List.mem_singleton]
      intro hqa
      subst hqa
      exact hal hq
    · refine ih _ ?_ ?_ hl'
      · simp only [List.nodup_append, List.nodup_singleton]
        refine ⟨hnd, trivial, ?_⟩
        intro q hq
        simp only [List.mem_singleton]
        intro hqa
        subst hqa
        exact hdisj q (List.mem_cons_self _ _) hq
      · intro q hq
        simp only [List.mem_append, List.mem_singleton]
        rintro (h' | h')
        · exact hdisj q (List.mem_cons_of_mem a hq) h'
        · subst h'
          exact hal hq

/-! ## Characterisation of the candidate list -/

lemma scanGrid_mem (adj : Grid → Loc → Bool) (g : Grid) (q : Loc)
    (h : q ∈ (scanGrid adj g).2) :
    q ∈ coords g ∧ getCell g q ≠ 0 ∧ adj g q = true := by
  rcases scan_snd_mem adj g (coords g) (1 + gridMax g, []) q h with h' | h'
  · cases h'
  · exact h'

lemma scanGrid_min (adj : Grid → Loc → Bool) (g : Grid) (q : Loc)
    (hq : q ∈ coords g) (h0 : getCell g q ≠ 0) (hadj : adj g q = true) :
    (scanGrid adj g).1 ≤ getCell g q :=
  scan_fst_le_cand adj g q (coords g) (1 + gridMax g, []) hq h0 hadj

lemma scanGrid_val (adj : Grid → Loc → Bool) (g : Grid) (q : Loc)
    (h : q ∈ (scanGrid adj g).2) : getCell g q = (scanGrid adj g).1 :=
  scan_snd_val adj g (coords g) (1 + gridMax g, []) (by intro r hr; cases hr) q h

lemma scanGrid_nodup (adj : Grid → Loc → Bool) (g : Grid) : (scanGrid adj g).2.Nodup :=
  scan_nodup adj g (coords g) (1 + gridMax g, []) List.nodup_nil
    (by intro q _ hq; cases hq) (coords_nodup g)

lemma scanGrid_ne_nil (adj : Grid → Loc → Bool) (g : Grid) (p : Loc)
    (hp : p ∈ coords g) (h0 : getCell g p ≠ 0) (hadj : adj g p = true) :
    (scanGrid adj g).2 ≠ [] :=
  scan_snd_ne_nil_of_cand adj g p (coords g) (1 + gridMax g, [])
    (by intro q hq; exact getCell_lt_scan_init g q hq) hp h0 hadj

lemma scanGrid_complete (adj : Grid → Loc → Bool) (g : Grid) (p : Loc)
    (hp : p ∈ coords g) (h0 : getCell g p ≠ 0) (hadj : adj g p = true)
    (hmin : ∀ q : Loc, q ∈ coords g → getCell g q ≠ 0 → adj g q = true →
      getCell g p ≤ getCell g q) :
    p ∈ (scanGrid adj g).2 := by
  have hne := scanGrid_ne_nil adj g p hp h0 hadj
  obtain ⟨r, hr⟩ := List.exists_mem_of_ne_nil _ hne
  have hrq := scanGrid_mem adj g r hr
  have hrv := scanGrid_val adj g r hr
  have h1 : getCell g p ≤ (scanGrid adj g).1 := by
    rw [← hrv]
    exact hmin r hrq.1 hrq.2.1 hrq.2.2
  have h2 : (scanGrid adj g).1 ≤ getCell g p := scanGrid_min adj g p hp h0 hadj
  exact scan_complete adj g (coords g) (1 + gridMax g, []) p
    (by intro r' hr'; cases hr') hp h0 hadj (le_antisymm h1 h2)

lemma scanGrid_eq_nil_iff (adj : Grid → Loc → Bool) (g : Grid) :
    (scanGrid adj g).2 = [] ↔
      ∀ p : Loc, ¬ (p ∈ coords g ∧ getCell g p ≠ 0 ∧ adj g p = true) := by
  constructor
  · intro h p hp
    exact scanGrid_ne_nil adj g p hp.1 hp.2.1 hp.2.2 h
  · intro h
    rcases hn : (scanGrid adj g).2 with _ | ⟨r, rest⟩
    · rfl
    · exfalso
      have : r ∈ (scanGrid adj g).2 := by rw [hn]; exact List.mem_cons_self _ _
      exact h r (scanGrid_mem adj g r this)

/-! ## `candList` and `choose_next` -/

lemma mem_candList_iff (g : Grid) (p : Loc) :
    p ∈ candList g ↔ isCand g p ∧ ∀ q : Loc, isCand g q → getCell g p ≤ getCell g q := by
  constructor
  · intro h
    have hm := scanGrid_mem is_adjacent g p h
    have hv := scanGrid_val is_adjacent g p h
    refine ⟨hm, ?_⟩
    intro q hq
    rw [hv]
    exact scanGrid_min is_adjacent g q hq.1 hq.2.1 hq.2.2
  · rintro ⟨⟨hp, h0, hadj⟩, hmin⟩
    exact scanGrid_complete is_adjacent g p hp h0 hadj
      (fun q hq hq0 hqadj => hmin q ⟨hq, hq0, hqadj⟩)

lemma candList_nodup (g : Grid) : (candList g).Nodup := scanGrid_nodup is_adjacent g

lemma candList_eq_nil_iff (g : Grid) : candList g = [] ↔ ∀ p : Loc, ¬ isCand g p :=
  scanGrid_eq_nil_iff is_adjacent g

lemma choose_next_mem (g : Grid) (i : Nat) (p : Loc) (h : choose_next g i = some p) :
    p ∈ candList g := by
  unfold choose_next at h
  obtain ⟨hlt, heq⟩ := List.getElem?_eq_some_iff.1 h
  rw [← heq]
  exact List.getElem_mem hlt

lemma choose_next_isSome (g : Grid) (i : Nat) (h : candList g ≠ []) :
    ∃ p : Loc, choose_next g i = some p := by
  unfold choose_next
  have hpos : 0 < (candList g).length := List.length_pos.2 h
  have hlt : i % (candList g).length < (candList g).length := Nat.mod_lt i hpos
  exact ⟨_, List.getElem?_eq_getElem hlt⟩

lemma choose_next_none_iff (g : Grid) (i : Nat) :
    choose_next g i = none ↔ candList g = [] := by
  constructor
  · intro h
    by_contra hne
    obtain ⟨p, hp⟩ := choose_next_isSome g i hne
    rw [h] at hp
    cases hp
  · intro h
    unfold choose_next
    rw [h]
    rfl

lemma pickProb_eq_of_nodup (cs : List Loc) (c : Loc) (hnd : cs.Nodup) (hc : c ∈ cs) :
    pickProb cs c = 1 / (cs.length : ℚ) := by
  unfold pickProb
  have hcard : (Finset.univ.filter (fun i : Fin cs.length => cs.get i = c)).card = 1 := by
    obtain ⟨i0, hi0⟩ := List.mem_iff_get.1 hc
    rw [Finset.card_eq_one]
    refine ⟨i0, ?_⟩
    ext j
    simp only [Finset.mem_filter, Finset.mem_univ, true_and, Finset.mem_singleton]
    constructor
    · intro hj
      exact hnd.get_inj_iff.1 (hj.trans hi0.symm)
    · intro hj
      subst hj
      exact hi0
  rw [hcard]
  norm_num

lemma is_adjacent_v0_iff (g : Grid) (p : Loc) :
    is_adjacent_v0 g p = true ↔
      ((0 < p.1 ∧ getCell g (p.1 - 1, p.2) = 0) ∨
       (0 < p.2 ∧ getCell g (p.1, p.2 - 1) = 0) ∨
       (p.1 < (dims g).1 - 1 ∧ getCell g (p.1 + 1, p.2) = 0) ∨
       (p.2 < (dims g).2 - 1 ∧ getCell g (p.1, p.2 + 1) = 0)) := by
  unfold is_adjacent_v0
  dsimp only
  split_ifs with h1 h2 h3 h4 <;> simp_all

/-- C1: if `choose_next` succeeds on a grid, the location it returns is a
candidate (an unfilled cell adjacent to the filled region, within the scanned
range), and its resistance value is a minimum over all candidates: it never
returns a candidate whose value exceeds that of some other candidate. -/
theorem choose_next_returns_min (g : Grid) (i : Nat) (p : Loc)
    (h : choose_next g i = some p) :
    isCand g p ∧ ∀ q : Loc, isCand g q → getCell g p ≤ getCell g q :=
  (mem_candList_iff g p).1 (choose_next_mem g i p h)

/-- Witness for C1, on the grid of the notebook's own `test_choose_next`:
`[[9,2,9],[9,0,9],[9,1,9]]` yields `(2,1)` (value 1 beats value 2). -/
theorem choose_next_returns_min_witness :
    isCand [[9,2,9],[9,0,9],[9,1,9]] (2,1) ∧
      ∀ q : Loc, isCand [[9,2,9],[9,0,9],[9,1,9]] q →
        getCell [[9,2,9],[9,0,9],[9,1,9]] (2,1) ≤ getCell [[9,2,9],[9,0,9],[9,1,9]] q :=
  choose_next_returns_min [[9,2,9],[9,0,9],[9,1,9]] 0 (2,1) (by decide)

/-- C2: the narrowed candidate list of `choose_next` consists exactly of the
candidates achieving the minimum resistance value, it contains no duplicates,
and the uniform index draw of `random.choice` therefore selects each of its
`k` members with probability exactly `1/k`, regardless of scan position. -/
theorem choose_next_uniform (g : Grid) :
    (∀ p : Loc, p ∈ candList g ↔
      isCand g p ∧ ∀ q : Loc, isCand g q → getCell g p ≤ getCell g q)
    ∧ (candList g).Nodup
    ∧ ∀ c : Loc, c ∈ candList g → pickProb (candList g) c = 1 / ((candList g).length : ℚ) :=
  ⟨fun p => mem_candList_iff g p, candList_nodup g,
    fun c hc => pickProb_eq_of_nodup (candList g) c (candList_nodup g) hc⟩

/-- Witness for C2: on `[[9,1,1],[1,0,1],[9,1,9]]` the four tied minimum
candidates each have selection probability `1/4`. -/
theorem choose_next_uniform_witness :
    pickProb (candList [[9,1,1],[1,0,1],[9,1,9]]) (0,1) =
      1 / ((candList [[9,1,1],[1,0,1],[9,1,9]]).length : ℚ) :=
  (choose_next_uniform [[9,1,1],[1,0,1],[9,1,9]]).2.2 (0,1) (by decide)

/-- C7: `choose_next` has a valid result iff some cell qualifies as a
candidate; on an exhausted frontier it fails (`random.choice([])` raising
`IndexError` is the `none` outcome, which the driver surfaces as the
`frontier` error), an error distinct from the precondition failure and not a
silently returned default location. -/
theorem choose_next_frontier_error (g : Grid) (i : Nat) :
    ((∃ p : Loc, choose_next g i = some p) ↔ ∃ p : Loc, isCand g p)
    ∧ (choose_next g i = none ↔ ∀ p : Loc, ¬ isCand g p)
    ∧ (∀ (picks : Nat → Nat) (fuel k : Nat) (chosen : Loc) (tr : List Loc),
        on_boundary g chosen = false → candList g = [] →
        growLoop picks (fuel + 1) g chosen k tr = .error .frontier)
    ∧ PercErr.frontier ≠ PercErr.precondition := by
  refine ⟨?_, ?_, ?_, by decide⟩
  · constructor
    · rintro ⟨p, hp⟩
      exact ⟨p, ((mem_candList_iff g p).1 (choose_next_mem g i p hp)).1⟩
    · rintro ⟨p, hp⟩
      refine choose_next_isSome g i ?_
      intro hnil
      exact (candList_eq_nil_iff g).1 hnil p hp
  · rw [choose_next_none_iff, candList_eq_nil_iff]
  · intro picks fuel k chosen tr hb hnil
    unfold growLoop
    rw [if_neg (by rw [hb]; exact Bool.false_ne_true)]
    have : choose_next g (picks k) = none := (choose_next_none_iff g _).2 hnil
    rw [this]

/-- Witness for C7: on a fully filled 3×3 grid with an interior `chosen`, the
loop surfaces the `frontier` error. -/
theorem choose_next_frontier_error_witness :
    growLoop (fun _ => 0) (5 + 1) [[0,0,0],[0,0,0],[0,0,0]] (1,1) 0 [] =
      .error .frontier :=
  (choose_next_frontier_error [[0,0,0],[0,0,0],[0,0,0]] 0).2.2.1 (fun _ => 0) 5 0 (1,1) []
    (by decide) (by decide)

lemma is_adjacent_eq_v0 (g : Grid) (p : Loc) (h : getCell g p ≠ 0) :
    is_adjacent g p = is_adjacent_v0 g p := by
  unfold is_adjacent
  rw [if_neg h]

/-- C10: the two notebooks' `choose_next` implementations agree on every grid:
the scan skips cells equal to `0` before ever consulting `is_adjacent`, and on
unfilled cells the two `is_adjacent` variants coincide, so the candidate lists
(and hence the chosen locations) are identical. -/
theorem choose_next_variants_agree (g : Grid) (i : Nat) :
    candList_v0 g = candList g ∧ choose_next_v0 g i = choose_next g i := by
  have hstep : scanStep is_adjacent_v0 g = scanStep is_adjacent g := by
    funext st p
    unfold scanStep
    by_cases h : getCell g p = 0
    · rw [if_pos h, if_pos h]
    · rw [if_neg h, if_neg h, is_adjacent_eq_v0 g p h]
  have hcl : candList_v0 g = candList g := by
    unfold candList_v0 candList scanGrid
    rw [hstep]
  refine ⟨hcl, ?_⟩
  unfold choose_next_v0 choose_next
  rw [hcl]

/-- C4: for an in-range location, `is_adjacent` (the `testing.ipynb` version)
returns true iff the cell is unfilled and at least one in-bounds orthogonal
neighbour holds the sentinel `0`; in particular it returns false on every
already filled cell. -/
theorem is_adjacent_correct (g : Grid) (p : Loc) (hp : p ∈ coords g) :
    (is_adjacent g p = true ↔ getCell g p ≠ 0 ∧ hasFilledNeighbor g p)
    ∧ (getCell g p = 0 → is_adjacent g p = false) := by
  constructor
  · by_cases h0 : getCell g p = 0
    · unfold is_adjacent
      rw [if_pos h0]
      simp [h0]
    · rw [is_adjacent_eq_v0 g p h0, is_adjacent_v0_iff]
      unfold hasFilledNeighbor
      constructor
      · rintro (h | h | h | h)
        · exact ⟨h0, Or.inl h⟩
        · exact ⟨h0, Or.inr (Or.inl h)⟩
        · exact ⟨h0, Or.inr (Or.inr (Or.inl ⟨by omega, h.2⟩))⟩
        · exact ⟨h0, Or.inr (Or.inr (Or.inr ⟨by omega, h.2⟩))⟩
      · rintro ⟨_, (h | h | h | h)⟩
        · exact Or.inl h
        · exact Or.inr (Or.inl h)
        · exact Or.inr (Or.inr (Or.inl ⟨by omega, h.2⟩))
        · exact Or.inr (Or.inr (Or.inr ⟨by omega, h.2⟩))
  · intro h0
    unfold is_adjacent
    rw [if_pos h0]

/-- Witness for C4, on the grid of the notebook's own `test_is_adjacent`:
`(1,0)` is unfilled with the filled `(0,0)` above it, and `(0,0)` itself is
filled. -/
theorem is_adjacent_correct_witness :
    (is_adjacent [[0,1,2],[3,4,5],[6,7,8]] (1,0) = true ↔
      getCell [[0,1,2],[3,4,5],[6,7,8]] (1,0) ≠ 0 ∧
        hasFilledNeighbor [[0,1,2],[3,4,5],[6,7,8]] (1,0))
    ∧ (getCell [[0,1,2],[3,4,5],[6,7,8]] (1,0) = 0 →
        is_adjacent [[0,1,2],[3,4,5],[6,7,8]] (1,0) = false) :=
  is_adjacent_correct [[0,1,2],[3,4,5],[6,7,8]] (1,0) (by decide)

/-! ## Preconditions and density -/

/-- C3: `percolation` rejects every call whose `size` is not a positive odd
integer or whose `spread` is not a positive integer, with the distinguished
precondition error before any grid is constructed: the result carries no grid
and no simulation state. -/
theorem percolation_precondition_check (size spread : Int) (gen : Nat → Nat → Nat)
    (picks : Nat → Nat) (h : ¬ (0 < size ∧ size % 2 = 1 ∧ 0 < spread)) :
    percolation size spread gen picks = .error .precondition := by
  unfold percolation
  rw [if_neg h]

/-- Witness for C3: an even `size` is rejected. -/
theorem percolation_precondition_check_witness :
    percolation 4 5 (fun _ _ => 0) (fun _ => 0) = .error .precondition :=
  percolation_precondition_check 4 5 (fun _ _ => 0) (fun _ => 0) (by decide)

lemma gsize_eq (g : Grid) (n : Nat) (hlen : g.length = n)
    (hrect : ∀ row ∈ g, row.length = n) : gsize g = n * n := by
  unfold gsize
  rw [List.length_flatten]
  have hrep : g.map List.length = List.replicate n n := by
    rw [List.eq_replicate_iff]
    constructor
    · rw [List.length_map]; exact hlen
    · intro b hb
      obtain ⟨row, hrow, hb'⟩ := List.mem_map.1 hb
      rw [← hb']
      exact hrect row hrow
  rw [hrep, List.sum_replicate, smul_eq_mul]

/-- C8: `calculate_density` returns the count of sentinel-`0` cells divided by
the total cell count `n²`, so `density * n²` is exactly the integer filled-cell
count; and once at least one cell (the seed) is filled, the density lies in
`(0, 1]`. -/
theorem calculate_density_correct (g : Grid) (n : Nat) (hn : 0 < n)
    (hlen : g.length = n) (hrect : ∀ row ∈ g, row.length = n) :
    calculate_density g * ((n * n : Nat) : ℚ) = (filledCount g : ℚ)
    ∧ (0 < filledCount g → 0 < calculate_density g ∧ calculate_density g ≤ 1) := by
  have hsz : gsize g = n * n := gsize_eq g n hlen hrect
  have hpos : (0 : ℚ) < ((n * n : Nat) : ℚ) := by
    have : 0 < n * n := Nat.mul_pos hn hn
    exact_mod_cast this
  unfold calculate_density
  rw [hsz]
  constructor
  · field_simp
  · intro hf
    constructor
    · apply div_pos
      · exact_mod_cast hf
      · exact hpos
    · rw [div_le_one hpos]
      have hle : filledCount g ≤ gsize g := List.count_le_length 0 g.flatten
      rw [hsz] at hle
      exact_mod_cast hle

/-- Witness for C8, on the 5×5 grid printed by the first notebook's test run
(4 filled cells, density 0.16). -/
theorem calculate_density_correct_witness :
    calculate_density [[1,3,5,4,3],[1,4,4,3,5],[2,3,0,2,2],[0,0,0,4,2],[3,3,5,1,1]] *
        ((5 * 5 : Nat) : ℚ) =
      (filledCount [[1,3,5,4,3],[1,4,4,3,5],[2,3,0,2,2],[0,0,0,4,2],[3,3,5,1,1]] : ℚ)
    ∧ (0 < filledCount [[1,3,5,4,3],[1,4,4,3,5],[2,3,0,2,2],[0,0,0,4,2],[3,3,5,1,1]] →
        0 < calculate_density [[1,3,5,4,3],[1,4,4,3,5],[2,3,0,2,2],[0,0,0,4,2],[3,3,5,1,1]]
        ∧ calculate_density [[1,3,5,4,3],[1,4,4,3,5],[2,3,0,2,2],[0,0,0,4,2],[3,3,5,1,1]] ≤ 1) :=
  calculate_density_correct [[1,3,5,4,3],[1,4,4,3,5],[2,3,0,2,2],[0,0,0,4,2],[3,3,5,1,1]] 5
    (by decide) (by decide) (by decide)

/-! ## `choose_next` does not mutate the grid -/

lemma foldl_scanStepRun (g : Grid) :
    ∀ (l : List Loc) (st : Nat × List Loc),
      l.foldl scanStepRun (g, st) = (g, l.foldl (scanStep is_adjacent g) st) := by
  intro l
  induction l with
  | nil => intro st; rfl
  | cons a l ih =>
    intro st
    rw [List.foldl_cons, List.foldl_cons]
    have hstep : scanStepRun (g, st) a = (g, scanStep is_adjacent g st a) := by
      unfold scanStepRun scanStep
      dsimp only
      split_ifs <;> rfl
    rw [hstep, ih]

/-- C9: `choose_next` returns exactly one location when it succeeds and leaves
the grid unchanged: threading the grid through every statement of its body
yields the same grid the caller passed in (filling is done only by the driver
via `fill`). -/
theorem choose_next_no_mutation (g : Grid) (i : Nat) :
    (choose_next_run g i).1 = g
    ∧ (choose_next_run g i).2 = choose_next g i
    ∧ (candList g ≠ [] → ∃ p : Loc, (choose_next_run g i).2 = some p) := by
  have hrun : choose_next_run g i = (g, choose_next g i) := by
    unfold choose_next_run
    rw [foldl_scanStepRun g (coords g) (1 + gridMax g, [])]
    rfl
  refine ⟨by rw [hrun], by rw [hrun], ?_⟩
  intro h
  obtain ⟨p, hp⟩ := choose_next_isSome g i h
  exact ⟨p, by rw [hrun]; exact hp⟩

/-- Witness for C9: on the notebook's test grid `[[9,1,9],[9,0,9],[9,9,9]]`
the run returns the untouched grid and the single location `(0,1)`. -/
theorem choose_next_no_mutation_witness :
    (choose_next_run [[9,1,9],[9,0,9],[9,9,9]] 0).1 = [[9,1,9],[9,0,9],[9,9,9]]
    ∧ (choose_next_run [[9,1,9],[9,0,9],[9,9,9]] 0).2 =
        choose_next [[9,1,9],[9,0,9],[9,9,9]] 0
    ∧ (candList [[9,1,9],[9,0,9],[9,9,9]] ≠ [] →
        ∃ p : Loc, (choose_next_run [[9,1,9],[9,0,9],[9,9,9]] 0).2 = some p) :=
  choose_next_no_mutation [[9,1,9],[9,0,9],[9,9,9]] 0

/-! ## Effects of `fill` -/

lemma getCell_fill_self (g : Grid) (q : Loc) : getCell (fill g q) q = 0 := by
  unfold getCell fill
  simp only [List.getD_eq_getElem?_getD]
  rw [List.getElem?_set]
  split_ifs with hq h1
  · simp only [Option.getD_some]
    rw [List.getElem?_set]
    split_ifs with hq2 h2 <;> simp_all
  · simp
  · simp at hq

lemma getCell_fill_ne (g : Grid) (q p : Loc) (h : p ≠ q) :
    getCell (fill g q) p = getCell g p := by
  unfold getCell fill
  simp only [List.getD_eq_getElem?_getD]
  by_cases h1 : p.1 = q.1
  · have h2 : p.2 ≠ q.2 := by
      intro hc
      exact h (Prod.ext h1 hc)
    rw [List.getElem?_set, if_pos h1.symm]
    split_ifs with hlen
    · simp only [Option.getD_some]
      rw [List.getElem?_set_ne (fun hc => h2 hc.symm), h1]
    · have hd : g[p.1]? = none := by
        apply List.getElem?_eq_none
        rw [h1]
        exact Nat.le_of_not_lt hlen
      rw [hd]
  · rw [List.getElem?_set_ne (fun hc => h1 hc.symm)]

lemma getCell_fill_zero (g : Grid) (q p : Loc) (h : getCell g p = 0) :
    getCell (fill g q) p = 0 := by
  by_cases hpq : p = q
  · subst hpq
    exact getCell_fill_self g p
  · rw [getCell_fill_ne g q p hpq]
    exact h

lemma sum_set_nat : ∀ (l : List Nat) (i : Nat) (a : Nat) (h : i < l.length),
    (l.set i a).sum + l.get ⟨i, h⟩ = l.sum + a := by
  intro l
  induction l with
  | nil => intro i a h; cases h
  | cons x l ih =>
    intro i a h
    cases i with
    | zero =>
      rw [List.set_cons_zero, List.sum_cons, List.sum_cons]
      have : (x :: l).get ⟨0, h⟩ = x := rfl
      rw [this]
      omega
    | succ i =>
      have h' : i < l.length := Nat.lt_of_succ_lt_succ h
      rw [List.set_cons_succ, List.sum_cons, List.sum_cons]
      have : (x :: l).get ⟨i + 1, h⟩ = l.get ⟨i, h'⟩ := rfl
      rw [this]
      have := ih i a h'
      omega

lemma count_set_zero : ∀ (l : List Nat) (i : Nat) (h : i < l.length), l.get ⟨i, h⟩ ≠ 0 →
    (l.set i 0).count 0 = l.count 0 + 1 := by
  intro l
  induction l with
  | nil => intro i h; cases h
  | cons x l ih =>
    intro i h hne
    cases i with
    | zero =>
      have hx : x ≠ 0 := hne
      rw [List.set_cons_zero, List.count_cons, List.count_cons]
      simp [hx]
    | succ i =>
      have h' : i < l.length := Nat.lt_of_succ_lt_succ h
      have hne' : l.get ⟨i, h'⟩ ≠ 0 := hne
      rw [List.set_cons_succ, List.count_cons, List.count_cons, ih i h' hne']
      omega

lemma getD_eq_get (g : Grid) (x : Nat) (h : x < g.length) :
    g.getD x [] = g.get ⟨x, h⟩ := by
  rw [List.getD_eq_getElem?_getD, List.getElem?_eq_getElem h]
  rfl

lemma filledCount_fill (g : Grid) (p : Loc) (h1 : p.1 < g.length)
    (h2 : p.2 < (g.getD p.1 []).length) (hne : getCell g p ≠ 0) :
    filledCount (fill g p) = filledCount g + 1 := by
  unfold filledCount fill
  rw [List.count_flatten, List.count_flatten, List.map_set]
  have hrow : ((g.getD p.1 []).set p.2 0).count 0 = (g.getD p.1 []).count 0 + 1 := by
    apply count_set_zero _ _ h2
    have hd : (g.getD p.1 []).getD p.2 0 = (g.getD p.1 []).get ⟨p.2, h2⟩ := by
      rw [List.getD_eq_getElem?_getD, List.getElem?_eq_getElem h2]
      rfl
    rw [← hd]
    exact hne
  rw [hrow]
  have hlen : p.1 < (g.map (List.count 0)).length := by
    rw [List.length_map]
    exact h1
  have hsum := sum_set_nat (g.map (List.count 0)) p.1 ((g.getD p.1 []).count 0 + 1) hlen
  have hget : (g.map (List.count 0)).get ⟨p.1, hlen⟩ = (g.getD p.1 []).count 0 := by
    rw [List.get_map, getD_eq_get g p.1 h1]
  rw [hget] at hsum
  omega

lemma gsize_fill (g : Grid) (p : Loc) : gsize (fill g p) = gsize g := by
  unfold gsize fill
  by_cases h1 : p.1 < g.length
  · rw [List.length_flatten, List.length_flatten, List.map_set, List.length_set]
    have hlen : p.1 < (g.map List.length).length := by
      rw [List.length_map]
      exact h1
    have hsum := sum_set_nat (g.map List.length) p.1 (g.getD p.1 []).length hlen
    have hget : (g.map List.length).get ⟨p.1, hlen⟩ = (g.getD p.1 []).length := by
      rw [List.get_map, getD_eq_get g p.1 h1]
    rw [hget] at hsum
    omega
  · rw [List.set_eq_of_length_le (Nat.le_of_not_lt h1)]

lemma dims_fill (g : Grid) (p : Loc) : dims (fill g p) = dims g := by
  unfold dims fill
  cases g with
  | nil => rfl
  | cons r rest =>
    rcases p with ⟨x, y⟩
    cases x with
    | zero => simp [List.length_set]
    | succ i => simp

lemma rect_fill (g : Grid) (p : Loc) (h : Rect g) : Rect (fill g p) := by
  unfold Rect at *
  rw [dims_fill]
  by_cases h1 : p.1 < g.length
  · intro row hrow
    rcases List.mem_or_eq_of_mem_set hrow with h' | h'
    · exact h row h'
    · subst h'
      rw [List.length_set, getD_eq_get g p.1 h1]
      exact h _ (List.get_mem g p.1 h1)
  · unfold fill
    rw [List.set_eq_of_length_le (Nat.le_of_not_lt h1)]
    exact h

/-! ## Facts about `make_grid` and the seeded grid -/

lemma make_grid_length (n s : Nat) (gen : Nat → Nat → Nat) :
    (make_grid n s gen).length = n := by
  unfold make_grid
  rw [List.length_map, List.length_range]

lemma make_grid_row (n s : Nat) (gen : Nat → Nat → Nat) (x : Nat) (h : x < n) :
    (make_grid n s gen).getD x [] = (List.range n).map (fun y => 1 + gen x y % s) := by
  have hx : x < (make_grid n s gen).length := by rw [make_grid_length]; exact h
  rw [getD_eq_get _ _ hx]
  unfold make_grid
  rw [List.get_map, List.get_range]

lemma make_grid_row_len (n s : Nat) (gen : Nat → Nat → Nat) (x : Nat) (h : x < n) :
    ((make_grid n s gen).getD x []).length = n := by
  rw [make_grid_row n s gen x h, List.length_map, List.length_range]

lemma make_grid_cell (n s : Nat) (gen : Nat → Nat → Nat) (p : Loc)
    (h1 : p.1 < n) (h2 : p.2 < n) :
    getCell (make_grid n s gen) p = 1 + gen p.1 p.2 % s := by
  unfold getCell
  rw [make_grid_row n s gen p.1 h1]
  have hy : p.2 < ((List.range n).map (fun y => 1 + gen p.1 y % s)).length := by
    rw [List.length_map, List.length_range]
    exact h2
  have hd : ((List.range n).map (fun y => 1 + gen p.1 y % s)).getD p.2 0 =
      ((List.range n).map (fun y => 1 + gen p.1 y % s)).get ⟨p.2, hy⟩ := by
    rw [List.getD_eq_getElem?_getD, List.getElem?_eq_getElem hy]
    rfl
  rw [hd, List.get_map, List.get_range]

lemma make_grid_no_zero (n s : Nat) (gen : Nat → Nat → Nat) :
    filledCount (make_grid n s gen) = 0 := by
  unfold filledCount
  rw [List.count_eq_zero]
  intro hmem
  rw [List.mem_flatten] at hmem
  obtain ⟨row, hrow, h0⟩ := hmem
  unfold make_grid at hrow
  obtain ⟨x, _, hrow'⟩ := List.mem_map.1 hrow
  rw [← hrow'] at h0
  obtain ⟨y, _, hv⟩ := List.mem_map.1 h0
  omega

lemma make_grid_dims (n s : Nat) (gen : Nat → Nat → Nat) :
    dims (make_grid n s gen) = (n, n) := by
  cases n with
  | zero => rfl
  | succ m =>
    unfold dims
    rw [make_grid_length]
    have h0 : (make_grid (m+1) s gen).headD [] = (make_grid (m+1) s gen).getD 0 [] := by
      cases hg : make_grid (m+1) s gen with
      | nil => rfl
      | cons r rest => rfl
    rw [h0, make_grid_row_len (m+1) s gen 0 (Nat.succ_pos m)]

lemma make_grid_rect (n s : Nat) (gen : Nat → Nat → Nat) : Rect (make_grid n s gen) := by
  unfold Rect
  rw [make_grid_dims]
  intro row hrow
  unfold make_grid at hrow
  obtain ⟨x, _, hrow'⟩ := List.mem_map.1 hrow
  rw [← hrow', List.length_map, List.length_range]

lemma gsize_make_grid (n s : Nat) (gen : Nat → Nat → Nat) :
    gsize (make_grid n s gen) = n * n := by
  apply gsize_eq _ n (make_grid_length n s gen)
  intro row hrow
  unfold make_grid at hrow
  obtain ⟨x, _, hrow'⟩ := List.mem_map.1 hrow
  rw [← hrow', List.length_map, List.length_range]

lemma seed_filledCount (n s : Nat) (gen : Nat → Nat → Nat) (hn : 0 < n) :
    filledCount (fill (make_grid n s gen) (n / 2, n / 2)) = 1 := by
  have hmid : n / 2 < n := Nat.div_lt_self hn (by omega)
  rw [filledCount_fill _ _ (by rw [make_grid_length]; exact hmid)
    (by rw [make_grid_row_len n s gen _ hmid]; exact hmid)
    (by rw [make_grid_cell n s gen _ hmid hmid]; omega)]
  rw [make_grid_no_zero]

lemma seed_gsize (n s : Nat) (gen : Nat → Nat → Nat) :
    gsize (fill (make_grid n s gen) (n / 2, n / 2)) = n * n := by
  rw [gsize_fill, gsize_make_grid]

lemma seed_rect (n s : Nat) (gen : Nat → Nat → Nat) :
    Rect (fill (make_grid n s gen) (n / 2, n / 2)) :=
  rect_fill _ _ (make_grid_rect n s gen)

/-! ## The growing loop -/

lemma cand_bounds (g : Grid) (p : Loc) (hrect : Rect g) (hpc : p ∈ coords g) :
    p.1 < g.length ∧ p.2 < (g.getD p.1 []).length := by
  obtain ⟨hx, hy⟩ := (mem_coords g p).1 hpc
  rw [dims_fst] at hx
  refine ⟨hx, ?_⟩
  rw [getD_eq_get g p.1 hx, hrect _ (List.get_mem g p.1 hx)]
  exact hy

lemma count_lt_length_of_mem_ne {l : List Nat} {x : Nat} (hx : x ∈ l) (hne : x ≠ 0) :
    l.count 0 < l.length := by
  induction l with
  | nil => cases hx
  | cons y l ih =>
    rw [List.count_cons, List.length_cons]
    rcases List.mem_cons.1 hx with h | h
    · subst h
      have hbeq : (x == 0) = false := by simp [hne]
      rw [hbeq]
      simp only [Bool.false_eq_true, if_false]
      have := List.count_le_length 0 l
      omega
    · have := ih h
      split_ifs <;> omega

lemma growLoop_invariants (picks : Nat → Nat) :
    ∀ (fuel : Nat) (g : Grid) (chosen : Loc) (k : Nat) (tr : List Loc)
      (g' : Grid) (c' : Loc) (tr' : List Loc),
      Rect g → (∀ p ∈ tr, getCell g p = 0) → tr.Nodup →
      growLoop picks fuel g chosen k tr = .ok (g', c', tr') →
      tr'.Nodup
      ∧ filledCount g' + tr.length = filledCount g + tr'.length
      ∧ (∀ p : Loc, getCell g p = 0 → getCell g' p = 0)
      ∧ gsize g' = gsize g
      ∧ Rect g' := by
  intro fuel
  induction fuel with
  | zero =>
    intro g chosen k tr g' c' tr' hrect htr hnd hrun
    unfold growLoop at hrun
    split_ifs at hrun with hb
    · simp only [Except.ok.injEq, Prod.mk.injEq] at hrun
      obtain ⟨hg, _, ht⟩ := hrun
      subst hg
      subst ht
      exact ⟨hnd, rfl, fun p h => h, rfl, hrect⟩
  | succ fuel ih =>
    intro g chosen k tr g' c' tr' hrect htr hnd hrun
    unfold growLoop at hrun
    split_ifs at hrun with hb
    · simp only [Except.ok.injEq, Prod.mk.injEq] at hrun
      obtain ⟨hg, _, ht⟩ := hrun
      subst hg
      subst ht
      exact ⟨hnd, rfl, fun p h => h, rfl, hrect⟩
    · cases hcn : choose_next g (picks k) with
      | none =>
        rw [hcn] at hrun
        cases hrun
      | some p =>
        rw [hcn] at hrun
        have hmem := choose_next_mem g (picks k) p hcn
        obtain ⟨hpc, hp0, _⟩ := ((mem_candList_iff g p).1 hmem).1
        obtain ⟨hx, hy⟩ := cand_bounds g p hrect hpc
        have hrect' : Rect (fill g p) := rect_fill g p hrect
        have htr' : ∀ q ∈ (p :: tr), getCell (fill g p) q = 0 := by
          intro q hq
          rcases List.mem_cons.1 hq with h | h
          · subst h
            exact getCell_fill_self g q
          · exact getCell_fill_zero g p q (htr q h)
        have hnd' : (p :: tr).Nodup := by
          rw [List.nodup_cons]
          refine ⟨fun hmem' => hp0 (htr p hmem'), hnd⟩
        obtain ⟨h1, h2, h3, h4, h5⟩ :=
          ih (fill g p) p (k + 1) (p :: tr) g' c' tr' hrect' htr' hnd' hrun
        refine ⟨h1, ?_, ?_, ?_, h5⟩
        · have hfc : filledCount (fill g p) = filledCount g + 1 :=
            filledCount_fill g p hx hy hp0
          rw [hfc, List.length_cons] at h2
          omega
        · intro q hq
          exact h3 q (getCell_fill_zero g p q hq)
        · rw [h4, gsize_fill]

lemma growLoop_ne_fuel (picks : Nat → Nat) :
    ∀ (fuel : Nat) (g : Grid) (chosen : Loc) (k : Nat) (tr : List Loc),
      Rect g → gsize g - filledCount g < fuel →
      growLoop picks fuel g chosen k tr ≠ .error .fuel := by
  intro fuel
  induction fuel with
  | zero =>
    intro g chosen k tr _ h
    exact absurd h (Nat.not_lt_zero _)
  | succ fuel ih =>
    intro g chosen k tr hrect hlt
    unfold growLoop
    split_ifs with hb
    · intro hcon
      cases hcon
    · cases hcn : choose_next g (picks k) with
      | none =>
        intro hcon
        simp at hcon
      | some p =>
        have hmem := choose_next_mem g (picks k) p hcn
        obtain ⟨hpc, hp0, _⟩ := ((mem_candList_iff g p).1 hmem).1
        obtain ⟨hx, hy⟩ := cand_bounds g p hrect hpc
        apply ih (fill g p) p (k + 1) (p :: tr) (rect_fill g p hrect)
        rw [gsize_fill, filledCount_fill g p hx hy hp0]
        have hflat := getCell_mem_flatten g p hp0
        have hcnt : filledCount g < gsize g := count_lt_length_of_mem_ne hflat hp0
        unfold filledCount gsize at *
        omega

/-- C5: over a full run of percolation's growing loop from the seeded grid,
the recorded sequence of filled locations has no duplicates, the filled-cell
count grows by exactly one per loop iteration (ending at `1 + tr'.length`
from the single seed), and a cell once filled is never unfilled. -/
theorem percolation_fill_monotone (size spread : Int) (gen : Nat → Nat → Nat)
    (picks : Nat → Nat) (g' : Grid) (c' : Loc) (tr' : List Loc)
    (h : 0 < size ∧ size % 2 = 1 ∧ 0 < spread)
    (hrun : growLoop picks (size.toNat * size.toNat)
        (fill (make_grid size.toNat spread.toNat gen) (size.toNat / 2, size.toNat / 2))
        (size.toNat / 2, size.toNat / 2) 0 [] = .ok (g', c', tr')) :
    tr'.Nodup
    ∧ filledCount g' = 1 + tr'.length
    ∧ ∀ p : Loc,
        getCell (fill (make_grid size.toNat spread.toNat gen)
          (size.toNat / 2, size.toNat / 2)) p = 0 → getCell g' p = 0 := by
  have hn : 0 < size.toNat := by omega
  obtain ⟨h1, h2, h3, _, _⟩ := growLoop_invariants picks _ _ _ _ _ g' c' tr'
    (seed_rect _ _ gen) (by intro p hp; cases hp) List.nodup_nil hrun
  refine ⟨h1, ?_, h3⟩
  rw [seed_filledCount _ _ gen hn] at h2
  simp only [List.length_nil] at h2
  omega

/-- Witness for C5: the full run of `percolation(3, 1)` under the constant
random sources makes the single fill `(0,1)`. -/
theorem percolation_fill_monotone_witness :
    [((0 : Nat), (1 : Nat))].Nodup
    ∧ filledCount [[1,0,1],[1,0,1],[1,1,1]] = 1 + [((0 : Nat), (1 : Nat))].length
    ∧ ∀ p : Loc,
        getCell (fill (make_grid (3 : Int).toNat (1 : Int).toNat (fun _ _ => 0))
          ((3 : Int).toNat / 2, (3 : Int).toNat / 2)) p = 0 →
        getCell [[1,0,1],[1,0,1],[1,1,1]] p = 0 :=
  percolation_fill_monotone 3 1 (fun _ _ => 0) (fun _ => 0)
    [[1,0,1],[1,0,1],[1,1,1]] (0,1) [(0,1)] (by decide) (by rfl)

/-- C6: for every valid `size` and `spread` the growing loop terminates: its
fuel `size²` (one more than the `size²-1` unfilled cells after the seed) is
never exhausted, and every successful run performs at most `size²-1` fill
steps after the seed. -/
theorem percolation_terminates (size spread : Int) (gen : Nat → Nat → Nat)
    (picks : Nat → Nat) (h : 0 < size ∧ size % 2 = 1 ∧ 0 < spread) :
    percolation size spread gen picks ≠ .error .fuel
    ∧ ∀ (g' : Grid) (c' : Loc) (tr' : List Loc),
        growLoop picks (size.toNat * size.toNat)
          (fill (make_grid size.toNat spread.toNat gen) (size.toNat / 2, size.toNat / 2))
          (size.toNat / 2, size.toNat / 2) 0 [] = .ok (g', c', tr') →
        tr'.length ≤ size.toNat * size.toNat - 1 := by
  have hn : 0 < size.toNat := by omega
  have hfuel : gsize (fill (make_grid size.toNat spread.toNat gen)
        (size.toNat / 2, size.toNat / 2)) -
      filledCount (fill (make_grid size.toNat spread.toNat gen)
        (size.toNat / 2, size.toNat / 2)) < size.toNat * size.toNat := by
    rw [seed_gsize, seed_filledCount _ _ gen hn]
    have : 0 < size.toNat * size.toNat := Nat.mul_pos hn hn
    omega
  have hne := growLoop_ne_fuel picks (size.toNat * size.toNat)
    (fill (make_grid size.toNat spread.toNat gen) (size.toNat / 2, size.toNat / 2))
    (size.toNat / 2, size.toNat / 2) 0 [] (seed_rect _ _ gen) hfuel
  constructor
  · unfold percolation
    rw [if_pos h]
    dsimp only
    split
    · next e heq =>
        rw [heq] at hne
        intro hcon
        rw [Except.error.injEq] at hcon
        exact hne (by rw [hcon])
    · next g1 c1 t1 heq =>
        exact fun hcon => Except.noConfusion hcon
  · intro g' c' tr' hrun
    obtain ⟨_, h2, _, h4, _⟩ := growLoop_invariants picks _ _ _ _ _ g' c' tr'
      (seed_rect _ _ gen) (by intro p hp; cases hp) List.nodup_nil hrun
    rw [seed_filledCount _ _ gen hn] at h2
    simp only [List.length_nil] at h2
    have hle : filledCount g' ≤ gsize g' := List.count_le_length 0 g'.flatten
    rw [h4, seed_gsize] at hle
    omega

/-- Witness for C6: `percolation(3, 1)` under constant random sources does
not exhaust its fuel. -/
theorem percolation_terminates_witness :
    percolation 3 1 (fun _ _ => 0) (fun _ => 0) ≠ .error .fuel :=
  (percolation_terminates 3 1 (fun _ _ => 0) (fun _ => 0) (by decide)).1
